import Mathlib

/-!
Shallow Lean embedding of the blog microservice's write/update pipeline and
read-side visibility rules (Django/DRF application under `microservice/blog/`):
the `BlogSerializer` validation/create/update logic (`serializers.py`), the
`BlogProcessor` file handling and API views (`utils.py`, `views.py`), together
with the JSON decoding and pattern-substitution behaviour those code paths
depend on.  Database tables are modelled as lists of rows, timestamps as
naturals, and ids as integers (SQL integer primary keys).
-/

namespace BlogMS

/-! ## Data model

Rows of the relevant tables.  `models.py` is not part of the analysed sources;
the row shapes follow the spec's data model (§3) and the fields actually read
and written by `serializers.py` / `views.py`. -/

/-- A `Blog` (post) row.  Category links (the `Blog.categories` many-to-many
through-table) are carried alongside as the set of linked category ids. -/
structure BlogRow where
  id : Int
  user_id : Int
  magazine : Option Int
  title : String
  content : String
  is_draft : Bool
  is_approved : Bool
  is_rejected : Bool
  is_ready : Bool
  keywords : List String
  date_created : Nat
  date_updated : Nat
  categories : Finset Int
  deriving DecidableEq

/-- A `Magazine` (issue) row: lifecycle `flag` and release timestamp, as used
by the `flag='upcoming'` / `order_by('-date_released')` queries. -/
structure MagazineRow where
  id : Int
  flag : String
  date_released : Nat
  deriving DecidableEq

/-- A `Feedback` row: free-text feedback attached to a rejected blog. -/
structure FeedbackRow where
  id : Int
  blog : Int
  content : String
  deriving DecidableEq

/-! ## Category reconciliation (`BlogSerializer.update`, serializers.py 133-147)

`removed_category_ids = set(current) - set(new)`;
`new_category_ids = set(new) - set(current)`; the removed links are deleted
and the added links bulk-inserted.  Ids are the database's numeric category
ids (string ids from the client are coerced at the database boundary). -/

/-- `set(current_category_ids) - set(new_category_ids)`: the links removed by
`instance.categories.remove(*removed_category_ids)`. -/
def removedCategoryIds (current requested : Finset Int) : Finset Int :=
  current \ requested

/-- `set(new_category_ids) - set(current_category_ids)`: the links inserted by
the `bulk_create` over `blog_categories_instances`. -/
def addedCategoryIds (current requested : Finset Int) : Finset Int :=
  requested \ current

/-- The link set after `update` processes `category_ids`: the current links
minus the removed ones, plus the bulk-created ones. -/
def applyCategoryUpdate (current requested : Finset Int) : Finset Int :=
  (current \ removedCategoryIds current requested) ∪ addedCategoryIds current requested

/-! ## `BlogSerializer.update` (serializers.py 109-150) -/

/-- The validated field map handed to `update`: `validated_data.get(key, default)`
is field presence, so each client-controlled field is an `Option`.
`category_ids` is the (already decoded) list of requested category ids. -/
structure UpdateData where
  title : Option String
  content : Option String
  is_draft : Option Bool
  keywords : Option (List String)
  category_ids : Option (List Int)
  deriving DecidableEq

/-- `BlogSerializer.update`: server-controlled fields are overwritten
unconditionally, client-controlled fields via `validated_data.get(k, old)`,
and the category links are reconciled when `'category_ids' in validated_data`. -/
def BlogSerializer.update (inst0 : BlogRow) (validated_data : UpdateData)
    (now : Nat) : BlogRow :=
  let inst : BlogRow :=
    { inst0 with
      is_approved := false
      is_ready := true
      date_updated := now
      title := validated_data.title.getD inst0.title
      content := validated_data.content.getD inst0.content
      is_draft := validated_data.is_draft.getD inst0.is_draft
      keywords := validated_data.keywords.getD inst0.keywords }
  match validated_data.category_ids with
  | none => inst
  | some new_ids =>
      { inst with categories := applyCategoryUpdate inst.categories new_ids.toFinset }

/-! ## `BlogSerializer.create` (serializers.py 76-107, 152-166) -/

/-- The validated field map handed to `create`.  `date_created`, `is_ready`
and `is_approved` may be client-supplied (they are writable serializer
fields) but are overwritten by `create` before the row is persisted. -/
structure CreateData where
  user_id : Int
  title : String
  content : String
  is_draft : Bool
  keywords : List String
  category_ids : List Int
  date_created : Option Nat
  is_ready : Option Bool
  is_approved : Option Bool
  deriving DecidableEq

/-- `Magazine.objects.filter(flag='upcoming').order_by('-date_released').first()`:
among the rows kept so far, keep the one with the strictly larger
`date_released` (ties resolved by row order, which the SQL leaves open). -/
def pickLatest : List MagazineRow → Option MagazineRow
  | [] => none
  | m :: rest =>
      match pickLatest rest with
      | none => some m
      | some b => if b.date_released > m.date_released then some b else some m

/-- `BlogSerializer.__get_latest_upcommig_magazine`: the latest upcoming
magazine, or `none` for the `Magazine.DoesNotExist` raise. -/
def getLatestUpcommigMagazine (magazines : List MagazineRow) : Option MagazineRow :=
  pickLatest (magazines.filter (fun m => m.flag = "upcoming"))

/-- Failure of `create`: the `Magazine.DoesNotExist('There are no upcoming
magazines in the database.')` raise. -/
inductive CreateError
  | noUpcomingMagazine
  deriving DecidableEq

/-- `BlogSerializer.create`: resolve the upcoming magazine (raising if none),
stamp `magazine`, `date_created = now`, `is_ready = True`,
`is_approved = False` over whatever the client sent, pop `category_ids` and
bulk-create the links, and persist the row. -/
def BlogSerializer.create (magazines : List MagazineRow) (now : Nat)
    (blog_id : Int) (validated_data : CreateData) : Except CreateError BlogRow :=
  match getLatestUpcommigMagazine magazines with
  | none => .error .noUpcomingMagazine
  | some magazine =>
      .ok
        { id := blog_id
          user_id := validated_data.user_id
          magazine := some magazine.id
          title := validated_data.title
          content := validated_data.content
          is_draft := validated_data.is_draft
          is_approved := false
          is_rejected := false
          is_ready := true
          keywords := validated_data.keywords
          date_created := now
          date_updated := 0
          categories := validated_data.category_ids.toFinset }

/-! ## Request payload scalars and Python `int()` normalization

The views compare ids with `int(blog.user_id) == int(user_id)`, where the
request-side value is either a JSON number or a string. -/

/-- A scalar of the untyped request payload: id fields arrive either as
numbers or as strings. -/
inductive PyVal
  | pint (n : Int)
  | pstr (s : String)
  deriving DecidableEq

/-- Python whitespace stripped by `int(str)`. -/
def pyWs (c : Char) : Bool :=
  c = ' ' ∨ c = '\t' ∨ c = '\n' ∨ c = '\r' ∨ c = '\x0b' ∨ c = '\x0c'

/-- `str.strip()` on a character list. -/
def stripChars (l : List Char) : List Char :=
  ((l.dropWhile pyWs).reverse.dropWhile pyWs).reverse

/-- Decimal digit run: `none` unless every character is a digit. -/
def decDigitsAux : List Char → Nat → Option Nat
  | [], acc => some acc
  | c :: cs, acc =>
      if c.isDigit then decDigitsAux cs (acc * 10 + (c.toNat - 48)) else none

/-- A non-empty all-digit run, as a number. -/
def decDigits? : List Char → Option Nat
  | [] => none
  | l => decDigitsAux l 0

/-- Python `int(s)` on decimal literals: optional surrounding whitespace,
optional sign, digits; `none` is the `ValueError` raise. -/
def pyIntOfString (s : String) : Option Int :=
  match stripChars s.toList with
  | '+' :: rest => (decDigits? rest).map (fun n => (n : Int))
  | '-' :: rest => (decDigits? rest).map (fun n => -(n : Int))
  | rest => (decDigits? rest).map (fun n => (n : Int))

/-- Python `int(v)` on a payload scalar. -/
def pyIntOfVal : PyVal → Option Int
  | .pint n => some n
  | .pstr s => pyIntOfString s

/-! ## `read_blog` (views.py 176-219) -/

/-- `Blog.objects.get(pk=blog_id)`: `none` is the `Blog.DoesNotExist` raise. -/
def findBlog (db : List BlogRow) (blog_id : Int) : Option BlogRow :=
  db.find? (fun b => b.id = blog_id)

/-- The blog's `feedbacks` reverse relation, fetched by
`RejectedBlogSerializer`. -/
def feedbacksOf (fb : List FeedbackRow) (blog_id : Int) : List FeedbackRow :=
  fb.filter (fun f => f.blog = blog_id)

/-- Result of the single-blog read view. -/
inductive ReadOutcome
  | notFound
  | forbidden
  | fullView (b : BlogRow)
  | rejectedFullView (b : BlogRow) (feedbacks : List FeedbackRow)
  | uncaughtValueError
  deriving DecidableEq

/-- `read_blog`: 404 when the blog does not exist; the author gets the full
view (`RejectedBlogSerializer`, including feedback, when the blog is
rejected); anyone else gets the full view only when `is_approved`, else 403.
Ownership compares `int(blog.user_id) == int(user_id)`; a non-numeric
requester id makes `int()` raise `ValueError`, uncaught. -/
def read_blog (db : List BlogRow) (fb : List FeedbackRow)
    (user_id : PyVal) (blog_id : Int) : ReadOutcome :=
  match findBlog db blog_id with
  | none => .notFound
  | some blog =>
      match pyIntOfVal user_id with
      | none => .uncaughtValueError
      | some u =>
          if blog.user_id = u then
            if blog.is_rejected then .rejectedFullView blog (feedbacksOf fb blog.id)
            else .fullView blog
          else
            if blog.is_approved then .fullView blog
            else .forbidden

/-! ## JSON values and `json.loads`

`BlogSerializer.to_internal_value` decodes the `category_ids` / `keywords`
string fields with `json.loads`, and `BlogProcessor` decodes the
`file_placeholders` companion list the same way.  The decoder below is a
fuel-indexed recursive-descent parser for the JSON grammar (fuel bounds the
nesting depth; the top-level call supplies more fuel than the input length,
so it never runs out).  Numbers are kept as their lexemes (no arithmetic is
ever performed on them); the non-standard constants `NaN`, `Infinity` and
`-Infinity`, which CPython's `json.loads` accepts by default as float
values, are accepted likewise and kept as `num` lexemes.  One deviation
from CPython: `json.loads` accepts lone UTF-16 surrogate escapes, which a
Lean `Char` cannot represent, so the parser rejects them (surrogate pairs
are combined as CPython does). -/

/-- A decoded JSON value. -/
inductive Json
  | null
  | bool (b : Bool)
  | num (lexeme : String)
  | str (s : String)
  | arr (elems : List Json)
  | obj (fields : List (String × Json))

/-- JSON insignificant whitespace. -/
def jsonWsChar (c : Char) : Bool :=
  c = ' ' ∨ c = '\t' ∨ c = '\n' ∨ c = '\r'

/-- Drop leading JSON whitespace. -/
def skipWs : List Char → List Char
  | [] => []
  | c :: cs => if jsonWsChar c then skipWs cs else c :: cs

/-- Value of a hexadecimal digit. -/
def hexVal? (c : Char) : Option Nat :=
  if '0' ≤ c ∧ c ≤ '9' then some (c.toNat - 48)
  else if 'a' ≤ c ∧ c ≤ 'f' then some (c.toNat - 87)
  else if 'A' ≤ c ∧ c ≤ 'F' then some (c.toNat - 55)
  else none

/-- Four hex digits of a `\uXXXX` escape. -/
def parseHex4 : List Char → Option (Nat × List Char)
  | a :: b :: c :: d :: rest =>
      match hexVal? a, hexVal? b, hexVal? c, hexVal? d with
      | some va, some vb, some vc, some vd =>
          some (va * 4096 + vb * 256 + vc * 16 + vd, rest)
      | _, _, _, _ => none
  | _ => none

/-- Prepend a character to the content of a string-parse result. -/
def consFst (c : Char) : Option (List Char × List Char) → Option (List Char × List Char)
  | some (s, r) => some (c :: s, r)
  | none => none

/-- Single-character escapes of a JSON string. -/
def escChar? (e : Char) : Option Char :=
  if e = '"' then some '"'
  else if e = '\\' then some '\\'
  else if e = '/' then some '/'
  else if e = 'b' then some '\x08'
  else if e = 'f' then some '\x0c'
  else if e = 'n' then some '\n'
  else if e = 'r' then some '\r'
  else if e = 't' then some '\t'
  else none

/-- A `\uXXXX` escape, after the `\u`: a surrogate pair is combined into
one code point as CPython does, a lone surrogate is rejected (a Lean `Char`
cannot represent it), anything else becomes the character of its code.
`cont` continues parsing the rest of the string body. -/
def parseUEsc (cont : List Char → Option (List Char × List Char))
    (cs2 : List Char) : Option (List Char × List Char) :=
  match parseHex4 cs2 with
  | none => none
  | some (code, cs3) =>
      if 0xD800 ≤ code ∧ code < 0xDC00 then
        match cs3 with
        | '\\' :: 'u' :: cs4 =>
            match parseHex4 cs4 with
            | none => none
            | some (lo, cs5) =>
                if 0xDC00 ≤ lo ∧ lo < 0xE000 then
                  consFst
                    (Char.ofNat (0x10000 + (code - 0xD800) * 0x400 + (lo - 0xDC00)))
                    (cont cs5)
                else none
        | _ => none
      else if 0xDC00 ≤ code ∧ code < 0xE000 then none
      else consFst (Char.ofNat code) (cont cs3)

/-- Body of a JSON string, after the opening quote: content and remainder
after the closing quote.  Strict mode: unescaped control characters are
rejected, like CPython's default. -/
def parseStringBody : Nat → List Char → Option (List Char × List Char)
  | 0, _ => none
  | _ + 1, [] => none
  | n + 1, c :: cs =>
      if c = '"' then some ([], cs)
      else if c = '\\' then
        match cs with
        | [] => none
        | 'u' :: cs2 => parseUEsc (parseStringBody n) cs2
        | e :: cs2 =>
            match escChar? e with
            | some d => consFst d (parseStringBody n cs2)
            | none => none
      else if c.toNat < 0x20 then none
      else consFst c (parseStringBody n cs)

/-- Longest leading digit run. -/
def takeDigits : List Char → List Char × List Char
  | [] => ([], [])
  | c :: cs =>
      if c.isDigit then
        let (ds, rest) := takeDigits cs
        (c :: ds, rest)
      else ([], c :: cs)

/-- Integer part of a JSON number: `0` or a nonzero digit followed by digits. -/
def parseIntPart : List Char → Option (List Char × List Char)
  | [] => none
  | c :: cs =>
      if c = '0' then some (['0'], cs)
      else if c.isDigit then
        let (ds, rest) := takeDigits cs
        some (c :: ds, rest)
      else none

/-- Optional fraction part: `.` followed by at least one digit. -/
def parseFracPart : List Char → Option (List Char × List Char)
  | '.' :: cs =>
      match takeDigits cs with
      | ([], _) => none
      | (ds, rest) => some ('.' :: ds, rest)
  | l => some ([], l)

/-- Optional exponent part: `e`/`E`, optional sign, at least one digit. -/
def parseExpPart : List Char → Option (List Char × List Char)
  | [] => some ([], [])
  | c :: cs =>
      if c = 'e' ∨ c = 'E' then
        match cs with
        | [] => none
        | s :: cs2 =>
            if s = '+' ∨ s = '-' then
              match takeDigits cs2 with
              | ([], _) => none
              | (ds, rest) => some (c :: s :: ds, rest)
            else
              match takeDigits cs with
              | ([], _) => none
              | (ds, rest) => some (c :: ds, rest)
      else some ([], c :: cs)

/-- A JSON number, kept as its lexeme. -/
def parseNumber (l : List Char) : Option (Json × List Char) :=
  let signed : List Char × List Char :=
    match l with
    | '-' :: rest => (['-'], rest)
    | _ => ([], l)
  match parseIntPart signed.2 with
  | none => none
  | some (ip, l2) =>
      match parseFracPart l2 with
      | none => none
      | some (fp, l3) =>
          match parseExpPart l3 with
          | none => none
          | some (ep, l4) => some (.num ⟨signed.1 ++ ip ++ fp ++ ep⟩, l4)

/-- Elements of a non-empty JSON array, with the element parser supplied;
the fuel bounds the number of elements. -/
def parseArrayElems (pv : List Char → Option (Json × List Char)) :
    Nat → List Char → Option (List Json × List Char)
  | 0, _ => none
  | m + 1, l =>
      match pv l with
      | none => none
      | some (v, r) =>
          match skipWs r with
          | ']' :: r2 => some ([v], r2)
          | ',' :: r2 =>
              match parseArrayElems pv m r2 with
              | none => none
              | some (vs, r3) => some (v :: vs, r3)
          | _ => none

/-- Members of a non-empty JSON object, with the value parser supplied. -/
def parseObjMembers (pv : List Char → Option (Json × List Char)) :
    Nat → List Char → Option (List (String × Json) × List Char)
  | 0, _ => none
  | m + 1, l =>
      match skipWs l with
      | '"' :: r =>
          match parseStringBody (r.length + 1) r with
          | none => none
          | some (k, r2) =>
              match skipWs r2 with
              | ':' :: r3 =>
                  match pv r3 with
                  | none => none
                  | some (v, r4) =>
                      match skipWs r4 with
                      | '\x7d' :: r5 => some ([(⟨k⟩, v)], r5)
                      | ',' :: r5 =>
                          match parseObjMembers pv m r5 with
                          | none => none
                          | some (kvs, r6) => some ((⟨k⟩, v) :: kvs, r6)
                      | _ => none
              | _ => none
      | _ => none

/-- A JSON value: leading whitespace is skipped, then the value is parsed by
its first character.  The fuel bounds the nesting depth. -/
def parseValue : Nat → List Char → Option (Json × List Char)
  | 0, _ => none
  | n + 1, input =>
      match skipWs input with
      | '"' :: r =>
          match parseStringBody (r.length + 1) r with
          | none => none
          | some (s, rest) => some (.str ⟨s⟩, rest)
      | '[' :: r =>
          match skipWs r with
          | ']' :: r2 => some (.arr [], r2)
          | r2 =>
              match parseArrayElems (parseValue n) (r2.length + 1) r2 with
              | none => none
              | some (vs, rest) => some (.arr vs, rest)
      | '\x7b' :: r =>
          match skipWs r with
          | '\x7d' :: r2 => some (.obj [], r2)
          | _ =>
              match parseObjMembers (parseValue n) (r.length + 1) r with
              | none => none
              | some (kvs, rest) => some (.obj kvs, rest)
      | 't' :: 'r' :: 'u' :: 'e' :: r => some (.bool true, r)
      | 'f' :: 'a' :: 'l' :: 's' :: 'e' :: r => some (.bool false, r)
      | 'n' :: 'u' :: 'l' :: 'l' :: r => some (.null, r)
      | 'N' :: 'a' :: 'N' :: r => some (.num "NaN", r)
      | 'I' :: 'n' :: 'f' :: 'i' :: 'n' :: 'i' :: 't' :: 'y' :: r =>
          some (.num "Infinity", r)
      | '-' :: 'I' :: 'n' :: 'f' :: 'i' :: 'n' :: 'i' :: 't' :: 'y' :: r =>
          some (.num "-Infinity", r)
      | l => parseNumber l

/-- `json.loads`: parse one value and require only whitespace after it;
`none` is the `json.JSONDecodeError` raise. -/
def parseJson (s : String) : Option Json :=
  match parseValue (s.toList.length + 1) s.toList with
  | none => none
  | some (v, rest) => if skipWs rest = [] then some v else none

/-- Subscripting a decoded JSON object by key, as on a Python dict built by
`json.loads`: a duplicated key keeps its last value. -/
def objGet (fields : List (String × Json)) (key : String) : Option Json :=
  ((fields.filter (fun kv => kv.1 = key)).getLast?).map (fun kv => kv.2)

/-! ## Client-side JSON serialization of a string list

The request field is produced by serializing a list of strings to JSON (the
test factories use `json.dumps(...)`).  The encoder below emits the compact
form: `"` and `\` escaped, control characters as `\u00XX`, all other
characters literal (as `json.dumps` with `ensure_ascii=False` does). -/

/-- One lowercase hexadecimal digit. -/
def hexDigitChar (d : Nat) : Char :=
  if d < 10 then Char.ofNat (48 + d) else Char.ofNat (87 + d)

/-- Four hex digits of a code point below `0x10000`. -/
def encHex4 (n : Nat) : List Char :=
  [hexDigitChar (n / 4096 % 16), hexDigitChar (n / 256 % 16),
   hexDigitChar (n / 16 % 16), hexDigitChar (n % 16)]

/-- JSON encoding of one string character. -/
def encChar (c : Char) : List Char :=
  if c = '"' then ['\\', '"']
  else if c = '\\' then ['\\', '\\']
  else if c.toNat < 0x20 then '\\' :: 'u' :: encHex4 c.toNat
  else [c]

/-- JSON encoding of a string body. -/
def encStrBody (s : List Char) : List Char := s.flatMap encChar

/-- JSON encoding of a string, quotes included. -/
def encJString (s : String) : List Char := '"' :: (encStrBody s.toList ++ ['"'])

/-- Comma-separated encodings of the list elements. -/
def encElems : List String → List Char
  | [] => []
  | [s] => encJString s
  | s :: rest => encJString s ++ ',' :: encElems rest

/-- JSON serialization of a list of strings. -/
def encStrList (l : List String) : String := ⟨'[' :: (encElems l ++ [']'])⟩

end BlogMS

namespace BlogMS

/-! ## Helper lemmas about the upcoming-magazine query -/

theorem pickLatest_mem {xs : List MagazineRow} {m : MagazineRow}
    (h : pickLatest xs = some m) : m ∈ xs := by
  induction xs with
  | nil => simp [pickLatest] at h
  | cons x rest ih =>
      cases hr : pickLatest rest with
      | none =>
          simp only [pickLatest, hr] at h
          injection h with h2
          exact h2 ▸ List.mem_cons_self x rest
      | some b =>
          simp only [pickLatest, hr] at h
          by_cases hd : b.date_released > x.date_released
          · rw [if_pos hd] at h
            simp only [Option.some.injEq] at h
            subst h
            exact List.mem_cons_of_mem _ (ih hr)
          · rw [if_neg hd] at h
            simp only [Option.some.injEq] at h
            simp [h]

theorem pickLatest_all_eq {xs : List MagazineRow} {m : MagazineRow}
    (hne : xs ≠ []) (hall : ∀ x ∈ xs, x = m) : pickLatest xs = some m := by
  induction xs with
  | nil => exact absurd rfl hne
  | cons x rest ih =>
      have hx : x = m := hall x (List.mem_cons_self x rest)
      cases rest with
      | nil => simp [pickLatest, hx]
      | cons y ys =>
          have hr : pickLatest (y :: ys) = some m := by
            refine ih (by simp) ?_
            intro z hz
            exact hall z (List.mem_cons_of_mem _ hz)
          simp only [pickLatest] at hr ⊢
          rw [hr, hx]
          simp

/-! ## Claim theorems: reconciliation and update frame -/

/-- C1: on update, `to_add`/`to_remove` are disjoint, removing `to_remove`
and adding `to_add` turns the current link set into exactly the requested
set, and re-applying the same `category_ids` computes empty `to_add` and
`to_remove` and changes nothing further. -/
theorem category_update_reconciliation (current requested : Finset Int) :
    Disjoint (addedCategoryIds current requested) (removedCategoryIds current requested) ∧
    applyCategoryUpdate current requested = requested ∧
    removedCategoryIds (applyCategoryUpdate current requested) requested = ∅ ∧
    addedCategoryIds (applyCategoryUpdate current requested) requested = ∅ ∧
    applyCategoryUpdate (applyCategoryUpdate current requested) requested =
      applyCategoryUpdate current requested := by
  have happ : applyCategoryUpdate current requested = requested := by
    ext x
    simp only [applyCategoryUpdate, removedCategoryIds, addedCategoryIds,
      Finset.mem_union, Finset.mem_sdiff]
    tauto
  refine ⟨?_, happ, ?_, ?_, ?_⟩
  · rw [Finset.disjoint_left]
    intro a ha hb
    simp only [addedCategoryIds, removedCategoryIds, Finset.mem_sdiff] at ha hb
    exact ha.2 hb.1
  · rw [happ]
    simp [removedCategoryIds]
  · rw [happ]
    simp [addedCategoryIds]
  · rw [happ]
    ext x
    simp only [applyCategoryUpdate, removedCategoryIds, addedCategoryIds,
      Finset.mem_union, Finset.mem_sdiff]
    tauto

/-- C2: every update resets `is_approved` to false, `is_ready` to true and
`date_updated` to now regardless of prior values, while `title`, `content`,
`is_draft` and `keywords` take the incoming value exactly when present in the
validated map and keep their previous value otherwise. -/
theorem blog_update_field_policy (inst0 : BlogRow) (validated_data : UpdateData)
    (now : Nat) :
    (BlogSerializer.update inst0 validated_data now).is_approved = false ∧
    (BlogSerializer.update inst0 validated_data now).is_ready = true ∧
    (BlogSerializer.update inst0 validated_data now).date_updated = now ∧
    (BlogSerializer.update inst0 validated_data now).title =
      (match validated_data.title with | some t => t | none => inst0.title) ∧
    (BlogSerializer.update inst0 validated_data now).content =
      (match validated_data.content with | some c => c | none => inst0.content) ∧
    (BlogSerializer.update inst0 validated_data now).is_draft =
      (match validated_data.is_draft with | some d => d | none => inst0.is_draft) ∧
    (BlogSerializer.update inst0 validated_data now).keywords =
      (match validated_data.keywords with | some k => k | none => inst0.keywords) := by
  unfold BlogSerializer.update
  cases hc : validated_data.category_ids <;>
    cases validated_data.title <;>
      cases validated_data.content <;>
        cases validated_data.is_draft <;>
          cases validated_data.keywords <;>
            simp [Option.getD]

/-- C5: a successfully created blog is stamped with `date_created = now`,
`is_ready = true`, `is_approved = false` and the resolved upcoming magazine,
whatever the client supplied for those fields; when exactly one upcoming
magazine exists it is the one chosen; and when no upcoming magazine exists
creation fails with the no-upcoming-magazine error (no row is produced). -/
theorem blog_create_semantics (magazines : List MagazineRow) (now : Nat)
    (blog_id : Int) (validated_data : CreateData) :
    (∀ b, BlogSerializer.create magazines now blog_id validated_data = .ok b →
        b.date_created = now ∧ b.is_ready = true ∧ b.is_approved = false ∧
        ∃ m, m ∈ magazines ∧ m.flag = "upcoming" ∧
          getLatestUpcommigMagazine magazines = some m ∧ b.magazine = some m.id) ∧
    (∀ m, m ∈ magazines → m.flag = "upcoming" →
        (∀ m' ∈ magazines, m'.flag = "upcoming" → m' = m) →
        ∃ b, BlogSerializer.create magazines now blog_id validated_data = .ok b ∧
          b.magazine = some m.id) ∧
    ((∀ m ∈ magazines, m.flag ≠ "upcoming") →
        BlogSerializer.create magazines now blog_id validated_data =
          .error .noUpcomingMagazine) := by
  refine ⟨?_, ?_, ?_⟩
  · intro b hb
    unfold BlogSerializer.create at hb
    cases hm : getLatestUpcommigMagazine magazines with
    | none => rw [hm] at hb; exact absurd hb (by simp)
    | some m =>
        rw [hm] at hb
        simp only [Except.ok.injEq] at hb
        subst hb
        have hmem : m ∈ magazines.filter (fun x => x.flag = "upcoming") :=
          pickLatest_mem hm
        rw [List.mem_filter] at hmem
        exact ⟨rfl, rfl, rfl, m, hmem.1, by simpa using hmem.2, rfl, rfl⟩
  · intro m hmem hflag huniq
    have hfilter : getLatestUpcommigMagazine magazines = some m := by
      unfold getLatestUpcommigMagazine
      refine pickLatest_all_eq ?_ ?_
      · intro hnil
        have : m ∈ magazines.filter (fun x => x.flag = "upcoming") := by
          rw [List.mem_filter]; exact ⟨hmem, by simpa using hflag⟩
        rw [hnil] at this
        simp at this
      · intro z hz
        rw [List.mem_filter] at hz
        exact huniq z hz.1 (by simpa using hz.2)
    refine ⟨{ id := blog_id, user_id := validated_data.user_id,
              magazine := some m.id, title := validated_data.title,
              content := validated_data.content,
              is_draft := validated_data.is_draft, is_approved := false,
              is_rejected := false, is_ready := true,
              keywords := validated_data.keywords, date_created := now,
              date_updated := 0,
              categories := validated_data.category_ids.toFinset }, ?_, rfl⟩
    unfold BlogSerializer.create
    rw [hfilter]
  · intro hnone
    unfold BlogSerializer.create getLatestUpcommigMagazine
    have : magazines.filter (fun x => x.flag = "upcoming") = [] := by
      rw [List.filter_eq_nil_iff]
      intro a ha
      simpa using hnone a ha
    rw [this]
    rfl

/-- Witness for C5 at concrete inputs: a database whose single magazine is
upcoming yields a row stamped with it, and a database with no upcoming
magazine makes creation fail. -/
theorem blog_create_semantics_witness :
    (∃ b, BlogSerializer.create [⟨7, "upcoming", 10⟩] 5 3
        ⟨1, "t", "c", false, [], [], none, none, none⟩ = .ok b ∧
        b.magazine = some 7) ∧
    BlogSerializer.create [⟨7, "released", 10⟩] 5 3
        ⟨1, "t", "c", false, [], [], none, none, none⟩ =
      .error .noUpcomingMagazine := by
  constructor
  · exact (blog_create_semantics [⟨7, "upcoming", 10⟩] 5 3
      ⟨1, "t", "c", false, [], [], none, none, none⟩).2.1 ⟨7, "upcoming", 10⟩
      (by simp) (by simp) (by intro m' hm' _; simpa using hm')
  · exact (blog_create_semantics [⟨7, "released", 10⟩] 5 3
      ⟨1, "t", "c", false, [], [], none, none, none⟩).2.2
      (by intro m hm; simp at hm; simp [hm])

/-- C3: reading a blog returns 404 when no blog has the requested id;
otherwise the owner (compared by `int()`-normalized numeric identity) gets
the full view, extended with the blog's feedback entries exactly when the
blog is rejected, while any other requester gets the full view when the blog
is approved and 403 otherwise; and any string form of the requester id
behaves exactly like its numeric value. -/
theorem read_blog_visibility (db : List BlogRow) (fb : List FeedbackRow)
    (user_id : PyVal) (blog_id : Int) (u : Int)
    (hnorm : pyIntOfVal user_id = some u) :
    (findBlog db blog_id = none → read_blog db fb user_id blog_id = .notFound) ∧
    (∀ blog, findBlog db blog_id = some blog →
      (blog.user_id = u →
        read_blog db fb user_id blog_id =
          (if blog.is_rejected then .rejectedFullView blog (feedbacksOf fb blog.id)
           else .fullView blog)) ∧
      (blog.user_id ≠ u →
        read_blog db fb user_id blog_id =
          (if blog.is_approved then .fullView blog else .forbidden))) ∧
    (∀ s n, pyIntOfString s = some n →
      read_blog db fb (.pstr s) blog_id = read_blog db fb (.pint n) blog_id) := by
  refine ⟨?_, ?_, ?_⟩
  · intro hnone
    unfold read_blog
    rw [hnone]
  · intro blog hblog
    constructor
    · intro howner
      unfold read_blog
      rw [hblog]
      simp only [hnorm]
      rw [if_pos howner]
    · intro hother
      unfold read_blog
      rw [hblog]
      simp only [hnorm]
      rw [if_neg hother]
  · intro s n hs
    unfold read_blog
    cases findBlog db blog_id with
    | none => rfl
    | some blog => simp only [pyIntOfVal, hs]

/-- Witness for C3 at concrete inputs: with one unapproved, unrejected blog
owned by user 42, the owner identified by the string "42" gets the full
view, a different user gets 403, and a missing id gets 404. -/
theorem read_blog_visibility_witness :
    read_blog [⟨1, 42, none, "t", "c", false, false, false, true, [], 0, 0, ∅⟩]
        [] (.pstr "42") 1 =
      .fullView ⟨1, 42, none, "t", "c", false, false, false, true, [], 0, 0, ∅⟩ ∧
    read_blog [⟨1, 42, none, "t", "c", false, false, false, true, [], 0, 0, ∅⟩]
        [] (.pint 9) 1 = .forbidden ∧
    read_blog [⟨1, 42, none, "t", "c", false, false, false, true, [], 0, 0, ∅⟩]
        [] (.pint 42) 2 = .notFound := by
  refine ⟨?_, ?_, ?_⟩
  · have h := (read_blog_visibility
      [⟨1, 42, none, "t", "c", false, false, false, true, [], 0, 0, ∅⟩]
      [] (.pstr "42") 1 42 (by decide)).2.1
      ⟨1, 42, none, "t", "c", false, false, false, true, [], 0, 0, ∅⟩ (by decide)
    simpa using h.1 rfl
  · have h := (read_blog_visibility
      [⟨1, 42, none, "t", "c", false, false, false, true, [], 0, 0, ∅⟩]
      [] (.pint 9) 1 9 (by decide)).2.1
      ⟨1, 42, none, "t", "c", false, false, false, true, [], 0, 0, ∅⟩ (by decide)
    have h2 := (read_blog_visibility
      [⟨1, 42, none, "t", "c", false, false, false, true, [], 0, 0, ∅⟩]
      [] (.pint 9) 1 9 (by decide)).2.1
      ⟨1, 42, none, "t", "c", false, false, false, true, [], 0, 0, ∅⟩ (by decide)
    simpa using h2.2 (by decide)
  · exact (read_blog_visibility
      [⟨1, 42, none, "t", "c", false, false, false, true, [], 0, 0, ∅⟩]
      [] (.pint 42) 2 42 (by decide)).1 (by decide)

end BlogMS

namespace BlogMS

/-! ## Round-trip of the string-list JSON codec -/

theorem hexVal_hexDigitChar (d : Nat) (hd : d < 16) :
    hexVal? (hexDigitChar d) = some d := by
  interval_cases d <;> decide

theorem parseHex4_encHex4 (code : Nat) (hc : code < 65536) (rest : List Char) :
    parseHex4 (encHex4 code ++ rest) = some (code, rest) := by
  unfold encHex4 parseHex4
  simp only [List.cons_append, List.nil_append]
  rw [hexVal_hexDigitChar _ (Nat.mod_lt _ (by omega)),
    hexVal_hexDigitChar _ (Nat.mod_lt _ (by omega)),
    hexVal_hexDigitChar _ (Nat.mod_lt _ (by omega)),
    hexVal_hexDigitChar _ (Nat.mod_lt _ (by omega))]
  simp only [Option.some.injEq, Prod.mk.injEq]
  exact ⟨by omega, trivial⟩

theorem length_le_encStrBody (s : List Char) :
    s.length ≤ (encStrBody s).length := by
  induction s with
  | nil => simp [encStrBody]
  | cons c cs ih =>
      have h1 : 1 ≤ (encChar c).length := by
        unfold encChar
        split_ifs <;> simp [encHex4]
      simp only [encStrBody, List.flatMap_cons, List.length_append, List.length_cons]
      simp only [encStrBody] at ih
      omega

theorem psb_esc_quote (n : Nat) (l : List Char) :
    parseStringBody (n + 1) ('\\' :: '"' :: l) =
      consFst '"' (parseStringBody n l) := rfl

theorem psb_esc_backslash (n : Nat) (l : List Char) :
    parseStringBody (n + 1) ('\\' :: '\\' :: l) =
      consFst '\\' (parseStringBody n l) := rfl

theorem parseUEsc_low (cont : List Char → Option (List Char × List Char))
    (code : Nat) (hc : code < 55296) (l : List Char) :
    parseUEsc cont (encHex4 code ++ l) = consFst (Char.ofNat code) (cont l) := by
  unfold parseUEsc
  rw [parseHex4_encHex4 code (by omega) l]
  show (if 55296 ≤ code ∧ code < 56320 then _
        else if 56320 ≤ code ∧ code < 57344 then none
        else consFst (Char.ofNat code) (cont l)) = consFst (Char.ofNat code) (cont l)
  rw [if_neg (by omega), if_neg (by omega)]

theorem psb_esc_u (n : Nat) (code : Nat) (hc : code < 55296) (l : List Char) :
    parseStringBody (n + 1) ('\\' :: 'u' :: (encHex4 code ++ l)) =
      consFst (Char.ofNat code) (parseStringBody n l) := by
  have hstep : parseStringBody (n + 1) ('\\' :: 'u' :: (encHex4 code ++ l)) =
      parseUEsc (parseStringBody n) (encHex4 code ++ l) := rfl
  rw [hstep, parseUEsc_low (parseStringBody n) code hc l]

theorem psb_plain (n : Nat) (c : Char) (hq : ¬c = '"') (hb : ¬c = '\\')
    (hctl : ¬c.toNat < 32) (l : List Char) :
    parseStringBody (n + 1) (c :: l) = consFst c (parseStringBody n l) := by
  simp only [parseStringBody, if_neg hq, if_neg hb, if_neg hctl]

theorem parseStringBody_enc (s : List Char) :
    ∀ n rest, s.length + 1 ≤ n →
      parseStringBody n (encStrBody s ++ ('"' :: rest)) = some (s, rest) := by
  induction s with
  | nil =>
      intro n rest hn
      obtain ⟨m, rfl⟩ : ∃ m, n = m + 1 := ⟨n - 1, by omega⟩
      simp [encStrBody, parseStringBody]
  | cons c cs ih =>
      intro n rest hn
      obtain ⟨m, rfl⟩ : ∃ m, n = m + 1 := ⟨n - 1, by omega⟩
      have hcs : cs.length + 1 ≤ m := by
        simp only [List.length_cons] at hn
        omega
      have hbody : encStrBody (c :: cs) ++ ('"' :: rest) =
          encChar c ++ (encStrBody cs ++ ('"' :: rest)) := by
        simp [encStrBody, List.append_assoc]
      rw [hbody]
      by_cases hq : c = '"'
      · subst hq
        rw [show encChar '"' = ['\\', '"'] from rfl]
        simp only [List.cons_append, List.nil_append]
        rw [psb_esc_quote, ih m rest hcs]
        rfl
      · by_cases hb : c = '\\'
        · subst hb
          rw [show encChar '\\' = ['\\', '\\'] from rfl]
          simp only [List.cons_append, List.nil_append]
          rw [psb_esc_backslash, ih m rest hcs]
          rfl
        · by_cases hctl : c.toNat < 32
          · rw [show encChar c = '\\' :: 'u' :: encHex4 c.toNat from by
              unfold encChar
              rw [if_neg hq, if_neg hb, if_pos hctl]]
            simp only [List.cons_append, List.append_assoc]
            rw [psb_esc_u m c.toNat (by omega) _, ih m rest hcs]
            simp [consFst, Char.ofNat_toNat]
          · rw [show encChar c = [c] from by
              unfold encChar
              rw [if_neg hq, if_neg hb, if_neg hctl]]
            simp only [List.cons_append, List.nil_append]
            rw [psb_plain m c hq hb hctl, ih m rest hcs]
            rfl

theorem skipWs_not_ws (c : Char) (h : jsonWsChar c = false) (l : List Char) :
    skipWs (c :: l) = c :: l := by
  simp [skipWs, h]

theorem parseValue_quote (n : Nat) (r : List Char) :
    parseValue (n + 1) ('"' :: r) =
      (match parseStringBody (r.length + 1) r with
       | none => none
       | some (s, rest) => some (.str ⟨s⟩, rest)) := rfl

theorem parseValue_lbracket_quote (n : Nat) (tl : List Char) :
    parseValue (n + 1) ('[' :: '"' :: tl) =
      (match parseArrayElems (parseValue n) (('"' :: tl).length + 1) ('"' :: tl) with
       | none => none
       | some (vs, rest) => some (.arr vs, rest)) := rfl

theorem parseValue_empty_arr (n : Nat) (r2 : List Char) :
    parseValue (n + 1) ('[' :: ']' :: r2) = some (.arr [], r2) := rfl

theorem parseValue_encJString (n : Nat) (s : String) (rest : List Char) :
    parseValue (n + 1) (encJString s ++ rest) = some (.str s, rest) := by
  have hlist : encJString s ++ rest =
      '"' :: (encStrBody s.toList ++ ('"' :: rest)) := by
    simp [encJString]
  rw [hlist, parseValue_quote]
  rw [parseStringBody_enc s.toList
    ((encStrBody s.toList ++ ('"' :: rest)).length + 1) rest (by
      have := length_le_encStrBody s.toList
      simp only [List.length_append, List.length_cons]
      omega)]
  rfl

theorem parseArrayElems_encElems (n : Nat) (l : List String) :
    ∀ m rest, l ≠ [] → l.length ≤ m →
      parseArrayElems (parseValue (n + 1)) m (encElems l ++ (']' :: rest)) =
        some (l.map .str, rest) := by
  induction l with
  | nil => intro m rest h; exact absurd rfl h
  | cons s l2 ih =>
      intro m rest _ hm
      obtain ⟨k, rfl⟩ : ∃ k, m = k + 1 := ⟨m - 1, by simp at hm; omega⟩
      cases l2 with
      | nil =>
          rw [show encElems [s] = encJString s from rfl]
          simp only [parseArrayElems]
          rw [parseValue_encJString]
          simp [skipWs, jsonWsChar]
      | cons t l3 =>
          rw [show encElems (s :: t :: l3) ++ (']' :: rest) =
              encJString s ++ (',' :: (encElems (t :: l3) ++ (']' :: rest))) from by
            simp [encElems, List.append_assoc]]
          simp only [parseArrayElems]
          rw [parseValue_encJString]
          have hrec := ih k rest (by simp) (by simp at hm ⊢; omega)
          simp [skipWs, jsonWsChar, hrec]

theorem length_le_encElems (l : List String) (h : l ≠ []) :
    l.length ≤ (encElems l).length := by
  induction l with
  | nil => exact absurd rfl h
  | cons s l2 ih =>
      have hs : 2 ≤ (encJString s).length := by
        simp [encJString]
      cases l2 with
      | nil => simpa [encElems] using by omega
      | cons t l3 =>
          have := ih (by simp)
          simp only [encElems, List.length_append, List.length_cons] at this ⊢
          omega

theorem parseValue_encStrList (n : Nat) (l : List String) (rest : List Char) :
    parseValue (n + 2) ('[' :: (encElems l ++ (']' :: rest))) =
      some (.arr (l.map .str), rest) := by
  cases l with
  | nil =>
      show parseValue (n + 1 + 1) ('[' :: ']' :: rest) = some (.arr [], rest)
      exact parseValue_empty_arr (n + 1) rest
  | cons s l2 =>
      have hhead : ∃ tl, encElems (s :: l2) ++ (']' :: rest) = '"' :: tl := by
        cases l2 with
        | nil =>
            exact ⟨(encStrBody s.toList ++ ['"']) ++ (']' :: rest), by
              simp [encElems, encJString, List.append_assoc]⟩
        | cons t l3 =>
            exact ⟨(encStrBody s.toList ++ ['"']) ++
              (',' :: (encElems (t :: l3) ++ (']' :: rest))), by
              simp [encElems, encJString, List.append_assoc]⟩
      obtain ⟨tl, htl⟩ := hhead
      have harr := parseArrayElems_encElems n (s :: l2)
        ((encElems (s :: l2) ++ (']' :: rest)).length + 1) rest (by simp) (by
          have h1 := length_le_encElems (s :: l2) (by simp)
          simp only [List.length_append, List.length_cons] at h1 ⊢
          omega)
      rw [htl] at harr ⊢
      rw [show (n : Nat) + 2 = (n + 1) + 1 from rfl, parseValue_lbracket_quote]
      rw [harr]

theorem parseJson_encStrList (l : List String) :
    parseJson (encStrList l) = some (.arr (l.map .str)) := by
  unfold parseJson
  have htl : (encStrList l).toList = '[' :: (encElems l ++ (']' :: [])) := rfl
  rw [htl]
  have hlen : ('[' :: (encElems l ++ (']' :: []))).length + 1 =
      ((encElems l).length + 1) + 2 := by
    simp
  rw [hlen]
  rw [parseValue_encStrList ((encElems l).length + 1) l []]
  rfl

end BlogMS

namespace BlogMS

/-! ## `BlogSerializer.to_internal_value` (serializers.py 40-74) -/

/-- A raw value of the `category_ids` / `keywords` request field: a single
string (multipart form data) or a native list of strings (JSON body). -/
inductive RawVal
  | str (s : String)
  | list (l : List String)

/-- The raw request data restricted to the two list fields handled by
`to_internal_value`; `none` means the key is absent. -/
structure RawData where
  category_ids : Option RawVal
  keywords : Option RawVal

/-- Python truthiness of a raw field value (`if category_ids and ...`):
empty strings and empty lists are falsy. -/
def rawTruthy : RawVal → Bool
  | .str s => s ≠ ""
  | .list _l => _l ≠ []

/-- `type(v) is list`. -/
def rawIsList : RawVal → Bool
  | .str _ => false
  | .list _ => true

/-- A validated value for one of the two fields: the list of strings that
the framework's `ListField` produced, or whatever JSON value `json.loads`
decoded. -/
inductive FieldVal
  | strList (l : List String)
  | json (j : Json)

/-- The validated map restricted to the two fields (`keywords` is optional). -/
structure ValidatedFields where
  category_ids : FieldVal
  keywords : Option FieldVal

/-- Modelled from the spec: the framework validation of one list field, as
invoked by `super().to_internal_value(data)` (rest_framework machinery, not
part of the analysed sources; §4.1 keeps it outside the core).  Under
multipart input `ListField.get_value` wraps a single string into a
one-element list, and the `CharField` child rejects blank members. -/
def superFieldList : RawVal → Option (List String)
  | .str s => if s = "" then none else some [s]
  | .list l => if l.any (fun x => x = "") then none else some l

/-- Modelled from the spec: `super().to_internal_value(data)`.  The required
`category_ids` fails when absent; the optional `keywords` is validated only
when present.  The error names the offending field, as the DRF
`ValidationError` detail dict does. -/
def superToInternalValue (data : RawData) : Except String ValidatedFields :=
  match data.category_ids with
  | none => .error "category_ids"
  | some v =>
      match superFieldList v with
      | none => .error "category_ids"
      | some cats =>
          match data.keywords with
          | none => .ok ⟨.strList cats, none⟩
          | some w =>
              match superFieldList w with
              | none => .error "keywords"
              | some kws => .ok ⟨.strList cats, some (.strList kws)⟩

/-- `BlogSerializer.to_internal_value`: run the superclass validation, then
for each of `category_ids` and `keywords` whose raw value is truthy and not
a list, replace the validated value with the `json.loads` of the string,
raising a `ValidationError` naming the field when decoding fails. -/
def to_internal_value (data : RawData) : Except String ValidatedFields :=
  match superToInternalValue data with
  | .error e => .error e
  | .ok vd0 =>
      let step1 : Except String ValidatedFields :=
        match data.category_ids with
        | some (.str s) =>
            if s ≠ "" then
              match parseJson s with
              | some j => .ok { vd0 with category_ids := .json j }
              | none => .error "category_ids"
            else .ok vd0
        | _ => .ok vd0
      match step1 with
      | .error e => .error e
      | .ok vd1 =>
          match data.keywords with
          | some (.str s) =>
              if s ≠ "" then
                match parseJson s with
                | some j => .ok { vd1 with keywords := some (.json j) }
                | none => .error "keywords"
              else .ok vd1
          | _ => .ok vd1

end BlogMS

namespace BlogMS

theorem encStrList_ne_empty (l : List String) : encStrList l ≠ "" := by
  intro h
  have : ('[' :: (encElems l ++ (']' :: []))) = ([] : List Char) := by
    have h2 := congrArg String.toList h
    simp [encStrList] at h2
  simp at this

/-- C4: a list of strings arriving as its JSON serialization in
`category_ids` or `keywords` is decoded back to the identical ordered list
by validation, and a string field value that is not valid JSON makes
validation fail with an error naming exactly that field, so nothing
proceeds to persistence. -/
theorem to_internal_value_list_fields :
    (∀ l : List String,
      to_internal_value ⟨some (.str (encStrList l)), none⟩ =
        .ok ⟨.json (.arr (l.map .str)), none⟩) ∧
    (∀ l : List String,
      to_internal_value ⟨some (.list ["1"]), some (.str (encStrList l))⟩ =
        .ok ⟨.strList ["1"], some (.json (.arr (l.map .str)))⟩) ∧
    (∀ s : String, parseJson s = none →
      to_internal_value ⟨some (.str s), none⟩ = .error "category_ids" ∧
      to_internal_value ⟨some (.list ["1"]), some (.str s)⟩ = .error "keywords") := by
  refine ⟨?_, ?_, ?_⟩
  · intro l
    have hne := encStrList_ne_empty l
    simp [to_internal_value, superToInternalValue, superFieldList, hne,
      parseJson_encStrList]
  · intro l
    have hne := encStrList_ne_empty l
    simp [to_internal_value, superToInternalValue, superFieldList, hne,
      parseJson_encStrList]
  · intro s hs
    by_cases hse : s = ""
    · subst hse
      constructor <;> rfl
    · constructor <;>
        simp [to_internal_value, superToInternalValue, superFieldList, hse, hs]

/-- Witness for C4 at concrete inputs: `["a", "b"]` round-trips through its
JSON serialization, and the non-JSON string "nope" is rejected naming the
field it was supplied in. -/
theorem to_internal_value_list_fields_witness :
    to_internal_value ⟨some (.str (encStrList ["a", "b"])), none⟩ =
      .ok ⟨.json (.arr [.str "a", .str "b"]), none⟩ ∧
    to_internal_value ⟨some (.str "nope"), none⟩ = .error "category_ids" ∧
    to_internal_value ⟨some (.list ["1"]), some (.str "nope")⟩ =
      .error "keywords" := by
  refine ⟨?_, ?_, ?_⟩
  · exact to_internal_value_list_fields.1 ["a", "b"]
  · exact (to_internal_value_list_fields.2.2 "nope" rfl).1
  · exact (to_internal_value_list_fields.2.2 "nope" rfl).2

end BlogMS

namespace BlogMS

/-! ## `delete_file_placeholder` (utils.py 95-108) and `re.sub`

The function removes the file uid from the blog body with
`re.sub(pattern, '', blog)` where `pattern = str(uid)` — the uid text is
used as a *regular-expression pattern*, not as a literal string.  The
embedding covers the fragment of `re` syntax needed here: literal
characters and the metacharacter `.` (any character except a newline).  A
pattern containing any other `re` metacharacter is outside the fragment
(`parseRe` answers `none`). -/

/-- One token of the embedded pattern fragment. -/
inductive RTok
  | lit (c : Char)
  | dot
  deriving DecidableEq

/-- The `re` metacharacters (`. ^ $ * + ? { } [ ] \ | ( )`). -/
def reMeta : List Char :=
  ['.', '^', '$', '*', '+', '?', '\x7b', '\x7d', '[', ']', '\\', '|', '(', ')']

/-- Compile a pattern within the fragment: `.` becomes the any-character
token, a non-metacharacter matches itself literally, any other
metacharacter is out of the fragment. -/
def parseRe : List Char → Option (List RTok)
  | [] => some []
  | c :: cs =>
      if c = '.' then (parseRe cs).map (fun ts => RTok.dot :: ts)
      else if c ∈ reMeta then none
      else (parseRe cs).map (fun ts => RTok.lit c :: ts)

/-- Whether one token matches one character (`.` matches all but `\n`). -/
def tokMatches : RTok → Char → Bool
  | .lit c, d => c = d
  | .dot, d => d ≠ '\n'

/-- Match the token list at the head of the text, returning the remainder. -/
def tryMatch : List RTok → List Char → Option (List Char)
  | [], rest => some rest
  | _ :: _, [] => none
  | t :: ts, c :: cs => if tokMatches t c then tryMatch ts cs else none

/-- The `re.sub(pattern, '', text)` scan: leftmost, non-overlapping; an
empty match consumes nothing and the scan moves one character on (so an
empty pattern leaves the text unchanged).  Fuel-indexed for structural
recursion; `length + 1` fuel always suffices. -/
def reSubEmptyFuel (toks : List RTok) : Nat → List Char → List Char
  | 0, l => l
  | _ + 1, [] => []
  | n + 1, c :: cs =>
      match tryMatch toks (c :: cs) with
      | some rest =>
          if rest.length < cs.length + 1 then reSubEmptyFuel toks n rest
          else c :: reSubEmptyFuel toks n cs
      | none => c :: reSubEmptyFuel toks n cs

/-- `re.sub(pattern, '', text)` within the fragment. -/
def reSubEmpty (toks : List RTok) (l : List Char) : List Char :=
  reSubEmptyFuel toks (l.length + 1) l

/-- `delete_file_placeholder(blog, uid)`: `re.sub(str(uid), f'', blog)`;
`none` when the uid contains pattern syntax outside the embedded fragment. -/
def delete_file_placeholder (blog : String) (uid : String) : Option String :=
  (parseRe uid.toList).map (fun toks => ⟨reSubEmpty toks blog.toList⟩)

/-- The spec's `remove_placeholder` (§4.4), from its words: delete every
literal occurrence of the placeholder by exact substring comparison,
scanning leftmost and non-overlapping. -/
def removeLiteralFuel (pat : List Char) : Nat → List Char → List Char
  | 0, l => l
  | _ + 1, [] => []
  | n + 1, c :: cs =>
      if !pat.isEmpty && pat.isPrefixOf (c :: cs) then
        removeLiteralFuel pat n ((c :: cs).drop pat.length)
      else c :: removeLiteralFuel pat n cs

/-- Exact-substring removal of every occurrence, on strings. -/
def removeLiteral (body : String) (pat : String) : String :=
  ⟨removeLiteralFuel pat.toList (body.toList.length + 1) body.toList⟩

/-! ## `BlogProcessor` (utils.py 14-71) and `ApiResponse` (utils.py 74-92) -/

def BLOG_POST_FILES_SUCCESS : String := "Blog with files posted successfully."

def BLOG_POST_TEXT_SUCCESS : String := "Blog with text only posted successfully."

def BLOG_PUT_FILES_SUCCESS : String := "Blog with files updated successfully."

def BLOG_PUT_TEXT_SUCCESS : String := "Blog with text only updated successfully."

/-- A `File` row built by `__process_blog_files`; the `uid` is whatever
JSON value `placeholders[idx][key]` held. -/
structure NewFile where
  blog : Int
  url : String
  uid : Json

/-- Python `request_method.upper()` (ASCII method names). -/
def pyToUpper (s : String) : String := ⟨s.toList.map Char.toUpper⟩

/-- Python subscripting `entry[key]` on a decoded JSON value: only a dict
answers; everything else raises (`TypeError`/`KeyError`). -/
def jsonSubscript (entry : Json) (key : String) : Option Json :=
  match entry with
  | .obj fields => objGet fields key
  | _ => none

/-- The `for idx, key in enumerate(files)` loop of `__process_blog_files`:
entry `idx` of the decoded placeholder list, subscripted by the upload's
key, becomes the File's uid.  `none` is an uncaught
`IndexError`/`KeyError`/`TypeError` raise. -/
def buildFileRows (blog_id : Int) (entries : List Json) :
    Nat → List (String × String) → Option (List NewFile)
  | _, [] => some []
  | idx, (key, url) :: rest =>
      match entries[idx]? with
      | none => none
      | some entry =>
          match jsonSubscript entry key with
          | none => none
          | some uid =>
              match buildFileRows blog_id entries (idx + 1) rest with
              | some rows => some (⟨blog_id, url, uid⟩ :: rows)
              | none => none

/-- `BlogProcessor.__process_blog_files`: decode the companion
`file_placeholders` JSON and build one File row per upload, pairing upload
`#k` with placeholder entry `#k`.  `none` is an uncaught raise: `TypeError`
when the field is absent (`json.loads(None)`), `JSONDecodeError` on
malformed JSON, a subscripting error on a non-list decode, or an
index/key error from the loop. -/
def process_blog_files (blog_id : Int) (files : List (String × String))
    (placeholders_json : Option String) : Option (List NewFile) :=
  match placeholders_json with
  | none => none
  | some pj =>
      match parseJson pj with
      | some (.arr entries) => buildFileRows blog_id entries 0 files
      | _ => none

/-- Result of `BlogProcessor.process_blog_data`. -/
inductive ProcOutcome
  | created (msg : String) (newFiles : List NewFile)
  | badRequest
  | uncaughtUnboundLocal
  | uncaughtFileError

/-- `BlogProcessor.process_blog_data`: the success-message pair is bound
only when the upper-cased method is POST or PUT; a valid serializer is
saved (the saved blog id abstracts `blog_serializer.save()`), attached
files are processed, and the 201 message classifies the result as "with
files" or "text only".  Referencing an unbound message variable is the
`UnboundLocalError` raise; an invalid serializer answers 400. -/
def process_blog_data (request_method : String) (serializer_valid : Bool)
    (blog_id : Int) (files : List (String × String))
    (placeholders_json : Option String) : ProcOutcome :=
  let msgs : Option (String × String) :=
    if pyToUpper request_method = "POST" then
      some (BLOG_POST_FILES_SUCCESS, BLOG_POST_TEXT_SUCCESS)
    else if pyToUpper request_method = "PUT" then
      some (BLOG_PUT_FILES_SUCCESS, BLOG_PUT_TEXT_SUCCESS)
    else none
  if serializer_valid then
    if files.length ≠ 0 then
      match process_blog_files blog_id files placeholders_json with
      | none => .uncaughtFileError
      | some rows =>
          match msgs with
          | some (fmsg, _) => .created fmsg rows
          | none => .uncaughtUnboundLocal
    else
      match msgs with
      | some (_, tmsg) => .created tmsg []
      | none => .uncaughtUnboundLocal
  else .badRequest

/-! ## `delete_file` (views.py 355-393) -/

/-- A `File` row (spec §3: unique id, owning post, placeholder uid, URL). -/
structure FileRow where
  id : Int
  blog : Int
  uid : String
  url : String
  deriving DecidableEq

/-- Modelled from the spec: the per-model `DoesNotExist` exception classes.
`models.py` is not among the analysed sources; per the spec's data model
`File` and `Post` are distinct entities, and each Django model class gets
its own `DoesNotExist` exception, so `File.DoesNotExist` is not an instance
of `Blog.DoesNotExist`. -/
inductive DjangoExc
  | blogDoesNotExist
  | fileDoesNotExist
  deriving DecidableEq

/-- `File.objects.select_related('blog').get(pk=file_id)`: raises
`File.DoesNotExist` when no row matches. -/
def getFile (files : List FileRow) (file_id : Int) : Except DjangoExc FileRow :=
  match files.find? (fun f => f.id = file_id) with
  | some f => .ok f
  | none => .error .fileDoesNotExist

/-- Result of the delete-file view. -/
inductive DeleteFileOutcome
  | badRequest (missingKey : String)
  | notFound
  | forbidden
  | deleted (newContent : Option String)
  | uncaught (e : DjangoExc)
  | uncaughtValueError
  | danglingForeignKey
  deriving DecidableEq

/-- `delete_file`: fetch the file — `File.objects.get` raises
`File.DoesNotExist` when absent, while the `except` clause catches only
`Blog.DoesNotExist` — then compare ownership by `int()` and, for the owner,
strip the uid from the blog body and delete the row (204).  The
`danglingForeignKey` branch is unreachable under foreign-key integrity. -/
def delete_file (blogs : List BlogRow) (files : List FileRow)
    (user_id : PyVal) (file_id : Int) : DeleteFileOutcome :=
  match getFile files file_id with
  | .error e =>
      if e = DjangoExc.blogDoesNotExist then .notFound else .uncaught e
  | .ok file =>
      match blogs.find? (fun b => b.id = file.blog) with
      | none => .danglingForeignKey
      | some blog =>
          match pyIntOfVal user_id with
          | none => .uncaughtValueError
          | some u =>
              if u = blog.user_id then
                .deleted (delete_file_placeholder blog.content file.uid)
              else .forbidden

/-! ## `update_blog` (views.py 287-323) -/

/-- `request.data` lookup: `data.get(k)` / `data[k]`. -/
def dictGet (payload : List (String × PyVal)) (k : String) : Option PyVal :=
  (payload.find? (fun kv => kv.1 = k)).map (fun kv => kv.2)

/-- Result of the update view. -/
inductive UpdateOutcome
  | badRequest (missingKey : String)
  | notFound
  | forbidden
  | processed (r : ProcOutcome)
  | uncaughtKeyError (k : String)
  | uncaughtValueError

/-- `update_blog`: the first `try` guards only `data['user']`, answering
400 with the missing key; `data['blog']` is read inside the second `try`,
whose `except` catches only `Blog.DoesNotExist`, so a missing 'blog' key
raises an uncaught `KeyError`.  The blog is then fetched by pk (a
non-numeric pk makes the field coercion raise), ownership is compared by
`int()`, and processing is delegated to
`BlogProcessor.process_blog_data("PUT", ...)`. -/
def update_blog (db : List BlogRow) (payload : List (String × PyVal))
    (serializer_valid : Bool) (files : List (String × String))
    (placeholders_json : Option String) : UpdateOutcome :=
  match dictGet payload "user" with
  | none => .badRequest "user"
  | some user_v =>
      match dictGet payload "blog" with
      | none => .uncaughtKeyError "blog"
      | some blog_v =>
          match pyIntOfVal blog_v with
          | none => .uncaughtValueError
          | some bid =>
              match findBlog db bid with
              | none => .notFound
              | some blog =>
                  match pyIntOfVal user_v with
                  | none => .uncaughtValueError
                  | some u =>
                      if blog.user_id = u then
                        .processed (process_blog_data "PUT" serializer_valid
                          blog.id files placeholders_json)
                      else .forbidden

end BlogMS

namespace BlogMS

/-! ## Lemmas: the pattern fragment versus literal removal -/

theorem parseRe_noMeta (l : List Char) (h : ∀ c ∈ l, c ∉ reMeta) :
    parseRe l = some (l.map RTok.lit) := by
  induction l with
  | nil => rfl
  | cons c cs ih =>
      have hc : c ∉ reMeta := h c (List.mem_cons_self c cs)
      have hdot : ¬c = '.' := fun hcd => hc (by rw [hcd]; decide)
      simp only [parseRe, if_neg hdot, if_neg hc]
      rw [ih (fun x hx => h x (List.mem_cons_of_mem _ hx))]
      rfl

theorem tryMatch_lits_pos (pat : List Char) :
    ∀ l, pat.isPrefixOf l = true →
      tryMatch (pat.map RTok.lit) l = some (l.drop pat.length) := by
  induction pat with
  | nil => intro l _; simp [tryMatch]
  | cons p ps ih =>
      intro l hpre
      cases l with
      | nil => simp [List.isPrefixOf] at hpre
      | cons c cs =>
          simp only [List.isPrefixOf, Bool.and_eq_true, beq_iff_eq] at hpre
          obtain ⟨rfl, hps⟩ := hpre
          simp only [List.map_cons, tryMatch, tokMatches]
          rw [if_pos (by simp), ih cs hps]
          simp

theorem tryMatch_lits_neg (pat : List Char) :
    ∀ l, pat.isPrefixOf l = false → tryMatch (pat.map RTok.lit) l = none := by
  induction pat with
  | nil => intro l h; simp [List.isPrefixOf] at h
  | cons p ps ih =>
      intro l hpre
      cases l with
      | nil => simp [List.map_cons, tryMatch]
      | cons c cs =>
          simp only [List.isPrefixOf, Bool.and_eq_false_iff, beq_eq_false_iff_ne] at hpre
          simp only [List.map_cons, tryMatch, tokMatches]
          rcases hpre with h | h
          · rw [if_neg (by simpa using h)]
          · by_cases hpc : p = c
            · rw [if_pos (by simpa using hpc), ih cs h]
            · rw [if_neg (by simpa using hpc)]

theorem reSub_eq_removeLiteral (pat : List Char) :
    ∀ n l, reSubEmptyFuel (pat.map RTok.lit) n l = removeLiteralFuel pat n l := by
  intro n
  induction n with
  | zero => intro l; rfl
  | succ n ih =>
      intro l
      cases l with
      | nil => rfl
      | cons c cs =>
          cases pat with
          | nil =>
              simp only [List.map_nil, reSubEmptyFuel, removeLiteralFuel, tryMatch]
              simpa using ih cs
          | cons p ps =>
              by_cases hpre : (p :: ps).isPrefixOf (c :: cs) = true
              · have h1 := tryMatch_lits_pos (p :: ps) (c :: cs) hpre
                have hlen : ((c :: cs).drop (p :: ps).length).length < cs.length + 1 := by
                  simp only [List.length_drop, List.length_cons]
                  omega
                simp only [reSubEmptyFuel, removeLiteralFuel, h1]
                rw [if_pos hlen, if_pos (by simp [hpre]), ih]
              · have h0 : (p :: ps).isPrefixOf (c :: cs) = false :=
                  Bool.eq_false_iff.mpr hpre
                have h1 := tryMatch_lits_neg (p :: ps) (c :: cs) h0
                simp only [reSubEmptyFuel, removeLiteralFuel, h1]
                rw [if_neg (by simp [h0]), ih]

theorem removeLiteralFuel_no_occ (pat : List Char) :
    ∀ n l, ¬(pat <:+: l) → removeLiteralFuel pat n l = l := by
  intro n
  induction n with
  | zero => intro l _; rfl
  | succ n ih =>
      intro l h
      cases l with
      | nil => rfl
      | cons c cs =>
          have hpre : pat.isPrefixOf (c :: cs) = false := by
            rw [Bool.eq_false_iff]
            intro hp
            exact h (List.isPrefixOf_iff_prefix.mp hp).isInfix
          have hcs : ¬(pat <:+: cs) := fun hinf => h (List.infix_cons hinf)
          simp only [removeLiteralFuel, hpre, Bool.and_false]
          simp [ih cs hcs]

/-! ## Claim theorems: placeholder removal, file processing, views -/

/-- C6 counterexample: with body "abc" and placeholder "a.c" the function
erases the whole body — `re.sub` treats the dot as any-character syntax —
while "a.c" does not occur literally in "abc", so exact-substring removal
returns the body unchanged. -/
theorem delete_file_placeholder_regex_counterexample :
    delete_file_placeholder "abc" "a.c" = some "" ∧
    removeLiteral "abc" "a.c" = "abc" ∧
    ("" : String) ≠ "abc" := by
  refine ⟨rfl, rfl, by decide⟩

/-- C6 amended: for a placeholder containing no `re` metacharacter — which
covers the hex-and-hyphen UUID strings the code stores as uids —
`delete_file_placeholder` removes every literal occurrence of the
placeholder by exact substring matching, and in particular returns the body
unchanged when the placeholder does not occur in it; a general placeholder
is instead interpreted as a regular-expression pattern. -/
theorem delete_file_placeholder_literal (body uid : String)
    (hm : ∀ c ∈ uid.toList, c ∉ reMeta) :
    delete_file_placeholder body uid = some (removeLiteral body uid) ∧
    (¬(uid.toList <:+: body.toList) →
      delete_file_placeholder body uid = some body) := by
  have hp : parseRe uid.toList = some (uid.toList.map RTok.lit) :=
    parseRe_noMeta _ hm
  constructor
  · simp only [delete_file_placeholder, hp, Option.map_some', Option.some.injEq]
    simp only [reSubEmpty, reSub_eq_removeLiteral]
    rfl
  · intro hocc
    have hno := removeLiteralFuel_no_occ uid.toList
      (body.toList.length + 1) body.toList hocc
    simp only [delete_file_placeholder, hp, Option.map_some', Option.some.injEq]
    simp only [reSubEmpty, reSub_eq_removeLiteral]
    rw [hno]
    cases body
    rfl

/-- Witness for C6 (amended) at concrete inputs: removing the literal
placeholder "a" from "xayaz", and the no-op when "a" is absent from "xyz". -/
theorem delete_file_placeholder_literal_witness :
    delete_file_placeholder "xayaz" "a" = some (removeLiteral "xayaz" "a") ∧
    delete_file_placeholder "xyz" "a" = some "xyz" := by
  refine ⟨(delete_file_placeholder_literal "xayaz" "a" (by decide)).1, ?_⟩
  exact (delete_file_placeholder_literal "xyz" "a" (by decide)).2 (by decide)

end BlogMS

namespace BlogMS

/-- C7: requesting deletion of a file id matching no File row raises
`File.DoesNotExist`, which the view's `except Blog.DoesNotExist` clause does
not catch — the result is an uncaught exception, not the NotFound response
required by the spec. -/
theorem delete_file_missing_file_uncaught :
    delete_file [] [] (.pint 1) 1 = .uncaught .fileDoesNotExist ∧
    DeleteFileOutcome.uncaught .fileDoesNotExist ≠ DeleteFileOutcome.notFound := by
  exact ⟨rfl, by decide⟩

/-- C9 counterexample: with method "GET", a valid serializer, one upload
and no `file_placeholders` payload, the call raises the file-processing
error (`json.loads(None)` raises TypeError) before the unbound
success-message variable is ever referenced — not an UnboundLocalError. -/
theorem process_blog_data_not_unbound_counterexample :
    process_blog_data "GET" true 1 [("file1", "u1")] none = .uncaughtFileError ∧
    ProcOutcome.uncaughtFileError ≠ ProcOutcome.uncaughtUnboundLocal := by
  exact ⟨rfl, fun h => ProcOutcome.noConfusion h⟩

/-- C9 amended: when the upper-cased request method is neither POST nor PUT
and the serializer validates, the success-message variables are never bound
and the call raises an uncaught UnboundLocalError whenever it reaches the
response — that is, when no files are attached or the file-placeholder
processing completes; when that processing raises first (missing or
malformed placeholder payload), its error pre-empts the UnboundLocalError. -/
theorem process_blog_data_unbound_local (request_method : String)
    (hpost : pyToUpper request_method ≠ "POST")
    (hput : pyToUpper request_method ≠ "PUT")
    (blog_id : Int) (files : List (String × String))
    (placeholders_json : Option String)
    (hfiles : files = [] ∨
      (process_blog_files blog_id files placeholders_json).isSome = true) :
    process_blog_data request_method true blog_id files placeholders_json =
      .uncaughtUnboundLocal := by
  rcases hfiles with h | h
  · subst h
    simp [process_blog_data, hpost, hput]
  · obtain ⟨rows, hrows⟩ := Option.isSome_iff_exists.mp h
    cases files with
    | nil => simp [process_blog_data, hpost, hput]
    | cons f fs => simp [process_blog_data, hpost, hput, hrows]

/-- Witness for C9 (amended) at a concrete input: method "GET", a valid
serializer and no attached files raise the UnboundLocalError. -/
theorem process_blog_data_unbound_local_witness :
    process_blog_data "GET" true 1 [] none = .uncaughtUnboundLocal :=
  process_blog_data_unbound_local "GET" (by decide) (by decide) 1 [] none
    (Or.inl rfl)

/-- Indexwise characterization of the `enumerate(files)` loop: a successful
run produces one row per upload, row `#k` built from upload `#k` and
placeholder entry `#(idx + k)`. -/
theorem buildFileRows_spec (blog_id : Int) (entries : List Json) :
    ∀ files idx rows, buildFileRows blog_id entries idx files = some rows →
      rows.length = files.length ∧
      ∀ k, (hk : k < files.length) →
        ∃ entry uid,
          entries[idx + k]? = some entry ∧
          jsonSubscript entry (files.get ⟨k, hk⟩).1 = some uid ∧
          rows[k]? = some ⟨blog_id, (files.get ⟨k, hk⟩).2, uid⟩ := by
  intro files
  induction files with
  | nil =>
      intro idx rows h
      simp only [buildFileRows, Option.some.injEq] at h
      subst h
      exact ⟨rfl, fun k hk => absurd hk (by simp)⟩
  | cons f fs ih =>
      intro idx rows h
      obtain ⟨key, url⟩ := f
      simp only [buildFileRows] at h
      cases he : entries[idx]? with
      | none => simp [he] at h
      | some entry =>
          simp only [he] at h
          cases hg : jsonSubscript entry key with
          | none => simp [hg] at h
          | some uid =>
              simp only [hg] at h
              cases hrec : buildFileRows blog_id entries (idx + 1) fs with
              | none => simp [hrec] at h
              | some rows2 =>
                  simp only [hrec, Option.some.injEq] at h
                  subst h
                  obtain ⟨hlen, hidx⟩ := ih (idx + 1) rows2 hrec
                  refine ⟨by simp [hlen], ?_⟩
                  intro k hk
                  cases k with
                  | zero =>
                      refine ⟨entry, uid, ?_, ?_, ?_⟩
                      · simpa using he
                      · simpa using hg
                      · simp
                  | succ k2 =>
                      have hk2 : k2 < fs.length := by
                        simpa using Nat.lt_of_succ_lt_succ hk
                      obtain ⟨e2, u2, h1, h2, h3⟩ := hidx k2 hk2
                      refine ⟨e2, u2, ?_, ?_, ?_⟩
                      · rw [show idx + (k2 + 1) = idx + 1 + k2 from by omega]
                        exact h1
                      · simpa using h2
                      · simpa using h3

/-- C8: with a valid serializer and a POST or PUT method, the success is
classified "text only" exactly when the request carried no upload, and
"with files" when uploads are present and their processing completes; in
that case exactly one File row is created per upload, row `#k` pairing
upload `#k` with placeholder-list entry `#k`, its uid being the value
stored under that upload's key in entry `#k`. -/
theorem process_blog_data_files_pairing (request_method : String)
    (hm : pyToUpper request_method = "POST" ∨ pyToUpper request_method = "PUT")
    (blog_id : Int) (files : List (String × String))
    (placeholders_json : Option String) :
    (files = [] →
      process_blog_data request_method true blog_id files placeholders_json =
        .created (if pyToUpper request_method = "POST" then BLOG_POST_TEXT_SUCCESS
                  else BLOG_PUT_TEXT_SUCCESS) []) ∧
    (∀ rows, files ≠ [] →
      process_blog_files blog_id files placeholders_json = some rows →
      process_blog_data request_method true blog_id files placeholders_json =
        .created (if pyToUpper request_method = "POST" then BLOG_POST_FILES_SUCCESS
                  else BLOG_PUT_FILES_SUCCESS) rows) ∧
    (∀ pj entries rows, placeholders_json = some pj →
      parseJson pj = some (.arr entries) →
      process_blog_files blog_id files placeholders_json = some rows →
      rows.length = files.length ∧
      ∀ k, (hk : k < files.length) →
        ∃ entry uid,
          entries[k]? = some entry ∧
          jsonSubscript entry (files.get ⟨k, hk⟩).1 = some uid ∧
          rows[k]? = some ⟨blog_id, (files.get ⟨k, hk⟩).2, uid⟩) := by
  refine ⟨?_, ?_, ?_⟩
  · intro h
    subst h
    rcases hm with h | h <;> simp [process_blog_data, h]
  · intro rows hne hproc
    cases files with
    | nil => exact absurd rfl hne
    | cons f fs =>
        rcases hm with h | h <;>
          simp [process_blog_data, h, hproc]
  · intro pj entries rows hpj hparse hproc
    rw [hpj] at hproc
    simp only [process_blog_files, hparse] at hproc
    have hspec := buildFileRows_spec blog_id entries files 0 rows hproc
    refine ⟨hspec.1, ?_⟩
    intro k hk
    obtain ⟨e, u, h1, h2, h3⟩ := hspec.2 k hk
    exact ⟨e, u, by simpa using h1, h2, h3⟩

/-- Witness for C8 at concrete inputs: one upload paired with the one-entry
placeholder list gives the "with files" success and one File row carrying
that placeholder value; no upload gives the "text only" success. -/
theorem process_blog_data_files_pairing_witness :
    process_blog_data "POST" true 7 [("file1", "u1")]
        (some "[\x7b\"file1\":\"abc\"\x7d]") =
      .created BLOG_POST_FILES_SUCCESS [⟨7, "u1", .str "abc"⟩] ∧
    process_blog_data "POST" true 7 [] none =
      .created BLOG_POST_TEXT_SUCCESS [] := by
  constructor
  · have h := (process_blog_data_files_pairing "POST" (Or.inl rfl) 7
      [("file1", "u1")] (some "[\x7b\"file1\":\"abc\"\x7d]")).2.1
      [⟨7, "u1", .str "abc"⟩] (by simp) (by rfl)
    exact h.trans (by rfl)
  · have h := (process_blog_data_files_pairing "POST" (Or.inl rfl) 7 []
      none).1 rfl
    exact h.trans (by rfl)

/-- C10: in the update view a payload without the 'user' key gets the 400
key-error response naming 'user', while a payload with 'user' but without
'blog' raises an uncaught KeyError — the missing-key reporting is not
uniform across the two required keys. -/
theorem update_blog_missing_key_asymmetry (db : List BlogRow)
    (payload : List (String × PyVal)) (serializer_valid : Bool)
    (files : List (String × String)) (placeholders_json : Option String) :
    (dictGet payload "user" = none →
      update_blog db payload serializer_valid files placeholders_json =
        .badRequest "user") ∧
    (∀ v, dictGet payload "user" = some v → dictGet payload "blog" = none →
      update_blog db payload serializer_valid files placeholders_json =
        .uncaughtKeyError "blog") := by
  constructor
  · intro h
    simp [update_blog, h]
  · intro v hv hb
    simp [update_blog, hv, hb]

/-- Witness for C10 at concrete payloads: the empty payload gets the 400
naming 'user'; the payload holding only 'user' raises the KeyError for
'blog'. -/
theorem update_blog_missing_key_asymmetry_witness :
    update_blog [] [] true [] none = .badRequest "user" ∧
    update_blog [] [("user", .pint 1)] true [] none =
      .uncaughtKeyError "blog" := by
  constructor
  · exact (update_blog_missing_key_asymmetry [] [] true [] none).1 rfl
  · exact (update_blog_missing_key_asymmetry [] [("user", .pint 1)] true []
      none).2 (.pint 1) rfl rfl

end BlogMS
